import Mathlib

/-!
Verification of the Miden VM assembly frontend specification against the
repository sources.  The repository ships three source files: the assembler
test suite (`assembly/src/tests.rs`), the `Join` control block
(`core/src/program/blocks/join_block.rs`) and the CLI data module
(`miden/src/cli/data.rs`).  The assembler implementation itself is not part
of the sources, so it is modelled from the specification (and checked
against the literal expectations of the in-repo test suite); the `Join`
block and the CLI data helpers are embedded directly from the code.

Tokens and source text are represented as `List Char` so that every
operation is structurally recursive and kernel-evaluable.
-/

deriving instance DecidableEq for Except

namespace MidenVM

/-- The prime modulus of the VM field, `P = 2^64 - 2^32 + 1`. -/
def P : Nat := 18446744069414584321

/-- Modelled from the spec: a VM operation — "an opaque atomic unit
identified by a small numeric opcode and an optional immediate
field-element value".  Only the operations appearing in the spec's
lowering table and in the test suite are enumerated. -/
inductive Operation where
  | push (v : Nat)
  | pad
  | incr
  | add
  | mul
  | neg
  | eqz
  | assert
  | drop
  | swap
  | and
  | noop
  | mload
  | mstore
  | fmpadd
  | fmpupdate
  | u32madd
  | u32add3
  deriving DecidableEq, Repr

/-- Modelled from the spec: the `CodeBlock` tree with its four kinds
(`Span`, `Join`, `Split`, `Loop`).  The assembler's own `CodeBlock` type is
not under `src/`; only `Join` (strictly binary, mirrored here) is. -/
inductive CodeBlock where
  | span (ops : List Operation)
  | join (first second : CodeBlock)
  | split (t f : CodeBlock)
  | loop (body : CodeBlock)
  deriving DecidableEq, Repr

/-- Whether a code block is a `Join` node. -/
def CodeBlock.isJoin : CodeBlock → Bool
  | .join _ _ => true
  | _ => false

/-- The children of a code block (a `Join` always has exactly two). -/
def CodeBlock.children : CodeBlock → List CodeBlock
  | .span _ => []
  | .join a b => [a, b]
  | .split t f => [t, f]
  | .loop b => [b]

/-- Modelled from the spec: the parsed body of a procedure or program — a
sequence of instructions, `exec` sites and control constructs.  A
first-order sequence type is used instead of `List` of nodes so that all
recursions over bodies are structural. -/
inductive Body where
  | nil
  | instrC (ops : List Operation) (rest : Body)
  | execC (name : List Char) (rest : Body)
  | ifC (thenB elseB : Body) (rest : Body)
  | whileC (loopB : Body) (rest : Body)
  deriving DecidableEq, Repr

/-- Concatenation of two bodies. -/
def Body.append : Body → Body → Body
  | .nil, b => b
  | .instrC ops r, b => .instrC ops (Body.append r b)
  | .execC n r, b => .execC n (Body.append r b)
  | .ifC t f r, b => .ifC t f (Body.append r b)
  | .whileC w r, b => .whileC w (Body.append r b)

instance : Append Body := ⟨Body.append⟩

/-- `n`-fold self-concatenation of a body (used by `repeat` unrolling). -/
def Body.repeatN : Nat → Body → Body
  | 0, _ => .nil
  | n + 1, b => b ++ Body.repeatN n b

/-- A body consisting of one instruction node per element of `l`. -/
def instrBody : List (List Operation) → Body
  | [] => .nil
  | ops :: r => .instrC ops (instrBody r)

/-- Modelled from the spec: the error kind of the assembler, one
constructor per error listed in section 7 (the messages for an unclosed
`if.true` and an unclosed `else` follow the test suite, which is part of
the sources). -/
inductive AsmError where
  | emptySource
  | expectedBegin (t : List Char)
  | missingEndFor (kind : List Char)
  | unmatchedIf
  | danglingElseNoIf
  | danglingElseNoEnd
  | danglingAfterProgram
  | emptyCodeBlock
  | unexpectedBodyTermination (t : List Char)
  | undefinedProcedure (name : List Char)
  | invalidProcedureLabel (l : List Char)
  | duplicateProcedureLabel (l : List Char)
  | malformedParam (tok param : List Char)
  | malformedMissing (mnemonic : List Char)
  | unknownInstruction (t : List Char)
  | exportedInProgram
  | outOfFuel
  deriving DecidableEq, Repr

-- TOKENIZATION
-- The token stream "yields tokens separated by ASCII whitespace; a `#`
-- begins a line comment consumed through the next newline".

/-- Whitespace characters recognized by the token stream. -/
def isWsChar (c : Char) : Bool :=
  c = ' ' || c = '\n' || c = '\t' || c = '\r'

/-- Modelled from the spec: comment stripping.  The flag records whether
the scanner is inside a `#` line comment; the terminating newline is kept
(it is whitespace). -/
def stripGo : Bool → List Char → List Char
  | _, [] => []
  | false, c :: r => if c = '#' then stripGo true r else c :: stripGo false r
  | true, c :: r => if c = '\n' then c :: stripGo false r else stripGo true r

/-- Remove every `#`-to-newline comment from the source. -/
def stripComments (cs : List Char) : List Char :=
  stripGo false cs

/-- Whitespace splitter: `cur` is the (reversed) token being accumulated. -/
def splitWsGo : List Char → List Char → List (List Char)
  | cur, [] => if cur.isEmpty then [] else [cur.reverse]
  | cur, c :: r =>
    if isWsChar c then
      if cur.isEmpty then splitWsGo [] r else cur.reverse :: splitWsGo [] r
    else
      splitWsGo (c :: cur) r

/-- Split a character list into whitespace-separated tokens. -/
def splitWs (cs : List Char) : List (List Char) :=
  splitWsGo [] cs

/-- Modelled from the spec: the token stream — whitespace-separated tokens
of the comment-stripped source. -/
def tokenize (cs : List Char) : List (List Char) :=
  splitWs (stripComments cs)

/-- Dot splitter: `cur` is the (reversed) segment being accumulated. -/
def splitDotGo : List Char → List Char → List (List Char)
  | cur, [] => [cur.reverse]
  | cur, c :: r => if c = '.' then cur.reverse :: splitDotGo [] r else splitDotGo (c :: cur) r

/-- Split a token at the dots: `mnemonic[.param[.param]]`. -/
def splitOnDot (t : List Char) : List (List Char) :=
  splitDotGo [] t

/-- Parse a non-empty all-digit character list as a decimal number. -/
def parseDecGo : Nat → List Char → Option Nat
  | acc, [] => some acc
  | acc, c :: r => if c.isDigit then parseDecGo (acc * 10 + (c.toNat - 48)) r else none

/-- Decimal parameter parser of the instruction decoder. -/
def parseDecChars : List Char → Option Nat
  | [] => none
  | cs => parseDecGo 0 cs

/-- Procedure labels must match `[A-Za-z_][A-Za-z0-9_]*`. -/
def isValidLabel : List Char → Bool
  | [] => false
  | c :: r => (c.isAlpha || c = '_') && r.all (fun d => d.isAlphanum || d = '_')

-- INSTRUCTION DECODER
-- Modelled from the spec's section 4.2 lowering table.

/-- The lowering of a `push` immediate: `push.0` is `pad`, `push.1` is
`pad incr`, and `push.v` for `v ≥ 2` is `push(v)` with `v` interpreted as
a field element (the decimal parameter must fit in a `u64`). -/
def pushLower (tok param : List Char) : Except AsmError (List Operation) :=
  match parseDecChars param with
  | none => .error (.malformedParam tok param)
  | some v =>
    if v < 2 ^ 64 then
      if v = 0 then .ok [.pad]
      else if v = 1 then .ok [.pad, .incr]
      else .ok [.push (v % P)]
    else .error (.malformedParam tok param)

/-- Decode a zero-parameter mnemonic to its fixed lowering. -/
def noParamLower (tok : List Char) (params : List (List Char)) (ops : List Operation) :
    Except AsmError (List Operation) :=
  match params with
  | [] => .ok ops
  | _ => .error (.unknownInstruction tok)

/-- Decode a one-parameter mnemonic through `f`. -/
def oneParamLower (tok root : List Char) (params : List (List Char))
    (f : List Char → Except AsmError (List Operation)) : Except AsmError (List Operation) :=
  match params with
  | [p] => f p
  | [] => .error (.malformedMissing root)
  | _ => .error (.unknownInstruction tok)

/-- Modelled from the spec: the table-driven decoding of one non-control
token into its VM-operation sequence (the lowerings of section 4.2). -/
def decodeInstr (tok root : List Char) (params : List (List Char)) :
    Except AsmError (List Operation) :=
  if root = "push".data then oneParamLower tok root params (pushLower tok)
  else if root = "add".data then noParamLower tok params [.add]
  else if root = "mul".data then noParamLower tok params [.mul]
  else if root = "sub".data then noParamLower tok params [.neg, .add]
  else if root = "assert".data then noParamLower tok params [.assert]
  else if root = "assertz".data then noParamLower tok params [.eqz, .assert]
  else if root = "eq".data then
    oneParamLower tok root params fun p =>
      match parseDecChars p with
      | some 0 => .ok [.eqz]
      | _ => .error (.malformedParam tok p)
  else if root = "u32wrapping_madd".data then noParamLower tok params [.u32madd, .drop]
  else if root = "u32wrapping_add3".data then noParamLower tok params [.u32add3, .drop]
  else if root = "swap".data then noParamLower tok params [.swap]
  else if root = "and".data then noParamLower tok params [.and]
  else if root = "drop".data then noParamLower tok params [.drop]
  else if root = "noop".data then noParamLower tok params [.noop]
  else if root = "loc_store".data then
    oneParamLower tok root params fun p =>
      (fun l => l ++ [.fmpadd, .mstore, .drop]) <$> pushLower tok p
  else if root = "loc_load".data then
    oneParamLower tok root params fun p =>
      (fun l => l ++ [.fmpadd, .mload]) <$> pushLower tok p
  else .error (.unknownInstruction tok)

/-- The routing decision for one body token. -/
inductive TokAction where
  | endA
  | elseA
  | ifA
  | whileA
  | repeatA (n : Nat)
  | execA (name : List Char)
  | declA
  | instrA (ops : List Operation)
  | errA (e : AsmError)
  deriving DecidableEq, Repr

/-- Modelled from the spec: classification of one body token as a control
keyword (`if.true`, `else`, `while.true`, `repeat.N`, `end`,
`exec.name`), a module-level keyword (which terminates a body), or a
plain instruction with its lowered operations. -/
def classify (t : List Char) : TokAction :=
  if t = "end".data then .endA
  else if t = "else".data then .elseA
  else
    match splitOnDot t with
    | [] => .errA (.unknownInstruction t)
    | root :: params =>
      if root = "if".data then
        match params with
        | [p] => if p = "true".data then .ifA else .errA (.malformedParam t p)
        | [] => .errA (.malformedMissing root)
        | _ => .errA (.unknownInstruction t)
      else if root = "while".data then
        match params with
        | [p] => if p = "true".data then .whileA else .errA (.malformedParam t p)
        | [] => .errA (.malformedMissing root)
        | _ => .errA (.unknownInstruction t)
      else if root = "repeat".data then
        match params with
        | [p] =>
          match parseDecChars p with
          | some n => if 0 < n then .repeatA n else .errA (.malformedParam t p)
          | none => .errA (.malformedParam t p)
        | [] => .errA (.malformedMissing root)
        | _ => .errA (.unknownInstruction t)
      else if root = "exec".data then
        match params with
        | [n] => .execA n
        | [] => .errA (.malformedMissing root)
        | _ => .errA (.unknownInstruction t)
      else if root = "proc".data || root = "export".data
          || root = "begin".data || root = "use".data then .declA
      else
        match decodeInstr t root params with
        | .ok ops => .instrA ops
        | .error e => .errA e

-- BODY PARSING
-- Modelled from the spec's section 4.5 state machine: straight-line
-- instructions are accumulated; control constructs push a frame; `end`
-- pops the innermost frame; `repeat` splices `N` copies of its body.

/-- An open control frame of the body parser; `outer` is the node
sequence accumulated before the construct opened. -/
inductive Frame where
  | ifFrame (outer : Body)
  | elseFrame (outer thenB : Body)
  | whileFrame (outer : Body)
  | repFrame (n : Nat) (outer : Body)
  deriving DecidableEq, Repr

/-- Modelled from the spec: the error reported when the token stream is
exhausted while frames are still open (the innermost open construct is
reported; messages follow the test suite). -/
def closeErr (root : List Char) : List Frame → AsmError
  | [] => .missingEndFor root
  | .ifFrame _ :: _ => .unmatchedIf
  | .elseFrame _ _ :: _ => .danglingElseNoEnd
  | .whileFrame _ :: _ => .missingEndFor "while".data
  | .repFrame _ _ :: _ => .missingEndFor "repeat".data

/-- Modelled from the spec: the recursive-descent body parser.  `root`
names the construct whose `end` terminates the body (for the unmatched
opener error), `stack` holds the open control frames and `acc` the node
sequence of the innermost open construct.  On the matching `end` it
returns the parsed body and the remaining tokens. -/
def parseBody (root : List Char) :
    List (List Char) → List Frame → Body → Except AsmError (Body × List (List Char))
  | [], stack, _acc => .error (closeErr root stack)
  | t :: rest, stack, acc =>
    match classify t with
    | .endA =>
      match stack with
      | [] => .ok (acc, rest)
      | .ifFrame outer :: s =>
        parseBody root rest s (outer ++ .ifC acc .nil .nil)
      | .elseFrame outer thenB :: s =>
        parseBody root rest s (outer ++ .ifC thenB acc .nil)
      | .whileFrame outer :: s =>
        parseBody root rest s (outer ++ .whileC acc .nil)
      | .repFrame n outer :: s =>
        parseBody root rest s (outer ++ Body.repeatN n acc)
    | .elseA =>
      match stack with
      | .ifFrame outer :: s => parseBody root rest (.elseFrame outer acc :: s) .nil
      | _ => .error .danglingElseNoIf
    | .ifA => parseBody root rest (.ifFrame acc :: stack) .nil
    | .whileA => parseBody root rest (.whileFrame acc :: stack) .nil
    | .repeatA n => parseBody root rest (.repFrame n acc :: stack) .nil
    | .execA name => parseBody root rest stack (acc ++ .execC name .nil)
    | .declA => .error (.unexpectedBodyTermination t)
    | .instrA ops => parseBody root rest stack (acc ++ .instrC ops .nil)
    | .errA e => .error e

-- PROCEDURE INLINING AND LOCAL FRAMES

/-- A local procedure table entry: label, declared locals, parsed body. -/
abbrev ProcTable := List (List Char × Nat × Body)

/-- Look up a local procedure by its label. -/
def lookupProc : ProcTable → List Char → Option (Nat × Body)
  | [], _ => none
  | (m, e) :: r, n => if m = n then some e else lookupProc r n

/-- Modelled from the spec: the local-memory frame of a procedure with `k`
locals — prologue `push(k) fmpupdate` and epilogue `push(P - k) fmpupdate`
around the inlined body (no frame when `k = 0`). -/
def frameBody (k : Nat) (body : Body) : Body :=
  if k = 0 then body
  else .instrC [.push k, .fmpupdate] (body ++ .instrC [.push (P - k), .fmpupdate] .nil)

/-- Modelled from the spec: procedure inlining.  Every `exec` site is
replaced by the callee's (already inlined) body wrapped in its local
frame; an unknown label is `UndefinedProcedure`. -/
def expandBody (tbl : ProcTable) : Body → Except AsmError Body
  | .nil => .ok .nil
  | .instrC ops r => (fun r' => .instrC ops r') <$> expandBody tbl r
  | .execC n r =>
    match lookupProc tbl n with
    | none => .error (.undefinedProcedure n)
    | some (k, body) => (fun r' => frameBody k body ++ r') <$> expandBody tbl r
  | .ifC t f r =>
    match expandBody tbl t with
    | .error e => .error e
    | .ok t' =>
      match expandBody tbl f with
      | .error e => .error e
      | .ok f' => (fun r' => .ifC t' f' r') <$> expandBody tbl r
  | .whileC b r =>
    match expandBody tbl b with
    | .error e => .error e
    | .ok b' => (fun r' => .whileC b' r') <$> expandBody tbl r

-- BLOCK BUILDING
-- Modelled from the spec: the span buffer is flushed at control-block
-- boundaries, and two or more sequential blocks are combined by a
-- left-leaning binary `Join` fold.

/-- Flush the span buffer: append a `Span` block unless the buffer is
empty. -/
def flushBuf (buf : List Operation) (blocks : List CodeBlock) : List CodeBlock :=
  if buf.isEmpty then blocks else blocks ++ [.span buf]

/-- Modelled from the spec: combining the sequential blocks of one body —
a singleton is emitted as-is, two or more blocks fold left-associatively
through binary `Join`, and an empty body is `EmptyCodeBlock`. -/
def combineBlocks : List CodeBlock → Except AsmError CodeBlock
  | [] => .error .emptyCodeBlock
  | b :: rest => .ok (rest.foldl .join b)

/-- Modelled from the spec: building a `CodeBlock` tree from an (exec-free)
body.  `buf` is the growing span buffer, `blocks` the flushed sequential
blocks.  An empty or absent `if` arm is materialized as `Span{noop}`. -/
def buildGo : Body → List Operation → List CodeBlock → Except AsmError CodeBlock
  | .nil, buf, blocks => combineBlocks (flushBuf buf blocks)
  | .instrC ops r, buf, blocks => buildGo r (buf ++ ops) blocks
  | .execC n _, _, _ => .error (.undefinedProcedure n)
  | .ifC t f r, buf, blocks =>
    match (if t = .nil then .ok (.span [.noop]) else buildGo t [] []) with
    | .error e => .error e
    | .ok tb =>
      match (if f = .nil then .ok (.span [.noop]) else buildGo f [] []) with
      | .error e => .error e
      | .ok fb => buildGo r [] (flushBuf buf blocks ++ [.split tb fb])
  | .whileC b r, buf, blocks =>
    match buildGo b [] [] with
    | .error e => .error e
    | .ok bb => buildGo r [] (flushBuf buf blocks ++ [.loop bb])

/-- Build the `CodeBlock` tree of a parsed, inlined body. -/
def buildBody (b : Body) : Except AsmError CodeBlock :=
  buildGo b [] []

/-- The built arm of an `if`: an empty or absent arm is `Span{noop}`. -/
def buildArmR (x : Body) : Except AsmError CodeBlock :=
  if x = .nil then .ok (.span [.noop]) else buildGo x [] []

-- MODULE PARSING AND TOP-LEVEL COMPILATION

/-- Modelled from the spec: the module parser's collection of a procedure
body token list — tokens up to the matching `end` (depth-counted over the
nested control openers), rejecting module-level keywords inside a body. -/
def takeBody : List (List Char) → Nat → Except AsmError (List (List Char) × List (List Char))
  | [], _ => .error (.missingEndFor "proc".data)
  | t :: rest, d =>
    match classify t with
    | .declA => .error (.unexpectedBodyTermination t)
    | .endA =>
      if d = 0 then .ok (["end".data], rest)
      else (fun p => (t :: p.1, p.2)) <$> takeBody rest (d - 1)
    | .ifA => (fun p => (t :: p.1, p.2)) <$> takeBody rest (d + 1)
    | .whileA => (fun p => (t :: p.1, p.2)) <$> takeBody rest (d + 1)
    | .repeatA _ => (fun p => (t :: p.1, p.2)) <$> takeBody rest (d + 1)
    | _ => (fun p => (t :: p.1, p.2)) <$> takeBody rest d

/-- Parse the dotted header of a `proc` declaration: label and declared
locals count (defaulting to zero). -/
def procHeader (t : List Char) : List (List Char) → Except AsmError (List Char × Nat)
  | [lbl] =>
    if isValidLabel lbl then .ok (lbl, 0)
    else .error (.invalidProcedureLabel lbl)
  | [lbl, n] =>
    if isValidLabel lbl then
      match parseDecChars n with
      | some k => .ok (lbl, k)
      | none => .error (.malformedParam t n)
    else .error (.invalidProcedureLabel lbl)
  | _ => .error (.unknownInstruction t)

/-- Modelled from the spec: the top-level declaration loop of the module
parser for a program.  `proc` declarations are parsed, inlined against the
procedures declared before them and recorded; `export` is rejected at
program scope; `use` directives are consumed; anything else ends the
declaration section.  `fuel` bounds the number of declarations (the
callers supply one unit per remaining token, which always suffices). -/
def parseDecls : Nat → List (List Char) → ProcTable → Except AsmError (ProcTable × List (List Char))
  | 0, _, _ => .error .outOfFuel
  | _ + 1, [], tbl => .ok (tbl, [])
  | fuel + 1, t :: rest, tbl =>
    match splitOnDot t with
    | [] => .ok (tbl, t :: rest)
    | root :: ps =>
      if root = "proc".data then
        match procHeader t ps with
        | .error e => .error e
        | .ok (lbl, k) =>
          if (lookupProc tbl lbl).isSome then .error (.duplicateProcedureLabel lbl)
          else
            match takeBody rest 0 with
            | .error e => .error e
            | .ok (_bodyToks, rest') =>
              match parseBody "proc".data _bodyToks [] .nil with
              | .error e => .error e
              | .ok (nodes, _) =>
                match expandBody tbl nodes with
                | .error e => .error e
                | .ok expanded => parseDecls fuel rest' (tbl ++ [(lbl, k, expanded)])
      else if root = "export".data then .error .exportedInProgram
      else if root = "use".data then parseDecls fuel rest tbl
      else .ok (tbl, t :: rest)

/-- Modelled from the spec: compilation of a program from its token list —
declarations, then the mandatory `begin … end` body (tokens after its
`end` are `DanglingAfterProgram`), then inlining and block building. -/
def compileTokens (toks : List (List Char)) : Except AsmError CodeBlock :=
  match toks with
  | [] => .error .emptySource
  | _ =>
    match parseDecls (toks.length + 1) toks [] with
    | .error e => .error e
    | .ok (tbl, rest) =>
      match rest with
      | [] => .error (.expectedBegin [])
      | b :: rest1 =>
        if b = "begin".data then
          match parseBody "begin".data rest1 [] .nil with
          | .error e => .error e
          | .ok (nodes, rest2) =>
            if rest2.isEmpty then
              match expandBody tbl nodes with
              | .error e => .error e
              | .ok expanded => buildBody expanded
            else .error .danglingAfterProgram
        else .error (.expectedBegin b)

/-- Modelled from the spec: `Assembler::compile` on raw source characters —
tokenize (stripping comments), then compile. -/
def compileChars (cs : List Char) : Except AsmError CodeBlock :=
  compileTokens (tokenize cs)

/-- `Assembler::compile` on a source string. -/
def compile (s : String) : Except AsmError CodeBlock :=
  compileChars s.data

-- TEXTUAL FORMS
-- The `Display` contract of operations and blocks is load-bearing for the
-- test suite; the forms below match section 8 of the spec and the tests.

/-- The textual form of one VM operation. -/
def opText : Operation → String
  | .push v => "push(" ++ Nat.repr v ++ ")"
  | .pad => "pad"
  | .incr => "incr"
  | .add => "add"
  | .mul => "mul"
  | .neg => "neg"
  | .eqz => "eqz"
  | .assert => "assert"
  | .drop => "drop"
  | .swap => "swap"
  | .and => "and"
  | .noop => "noop"
  | .mload => "mload"
  | .mstore => "mstore"
  | .fmpadd => "fmpadd"
  | .fmpupdate => "fmpupdate"
  | .u32madd => "u32madd"
  | .u32add3 => "u32add3"

/-- The textual form of a code block. -/
def blockText : CodeBlock → String
  | .span ops => "span " ++ String.intercalate " " (ops.map opText) ++ " end"
  | .join a b => "join " ++ blockText a ++ " " ++ blockText b ++ " end"
  | .split t f => "if.true " ++ blockText t ++ " else " ++ blockText f ++ " end"
  | .loop b => "while.true " ++ blockText b ++ " end"

/-- The textual form of a program: `begin <root> end`. -/
def programText (cb : CodeBlock) : String :=
  "begin " ++ blockText cb ++ " end"

/-- The verbatim message of each error kind (section 7 of the spec and the
literal strings asserted by the test suite). -/
def errMsg : AsmError → String
  | .emptySource => "source code cannot be an empty string"
  | .expectedBegin t => "unexpected token: expected 'begin' but was '" ++ ⟨t⟩ ++ "'"
  | .missingEndFor k => String.mk k ++ " without matching end"
  | .unmatchedIf => "if without matching else/end"
  | .danglingElseNoIf => "else without matching if"
  | .danglingElseNoEnd => "else without matching end"
  | .danglingAfterProgram => "dangling instructions after program end"
  | .emptyCodeBlock => "a code block must contain at least one instruction"
  | .unexpectedBodyTermination t => "unexpected body termination: invalid token '" ++ ⟨t⟩ ++ "'"
  | .undefinedProcedure n => "undefined procedure: " ++ ⟨n⟩
  | .invalidProcedureLabel l => "invalid procedure label: " ++ ⟨l⟩
  | .duplicateProcedureLabel l => "duplicate procedure label: " ++ ⟨l⟩
  | .malformedParam t p =>
    "malformed instruction `" ++ ⟨t⟩ ++ "`: parameter '" ++ ⟨p⟩ ++ "' is invalid"
  | .malformedMissing m => "malformed instruction '" ++ ⟨m⟩ ++ "': missing required parameter"
  | .unknownInstruction t => "instruction '" ++ ⟨t⟩ ++ "' is invalid"
  | .exportedInProgram => "exported procedures cannot be used in programs"
  | .outOfFuel => "internal: declaration fuel exhausted"

-- STRUCTURAL INVARIANTS

/-- No `Join` node of the tree has a `Join` as its second child: the shape
produced by left-leaning binary composition. -/
def noRightJoin : CodeBlock → Bool
  | .span _ => true
  | .join a b => noRightJoin a && noRightJoin b && !b.isJoin
  | .split t f => noRightJoin t && noRightJoin f
  | .loop b => noRightJoin b

-- JOIN BLOCK (embedded from core/src/program/blocks/join_block.rs)

/-- `Felt::new`: field elements are unsigned integers reduced modulo `P`. -/
def feltNew (v : Nat) : Nat := v % P

/-- A `Digest` of the external hasher (an opaque word of field elements). -/
abbrev Digest := List Nat

/-- Embedded from `join_block.rs`: a code block used to combine two other
code blocks, holding `body: Box<[CodeBlock; 2]>` and the eagerly computed
`hash`.  The child block type `α` and the hasher are external to the
sources and enter as parameters. -/
structure Join (α : Type) where
  body : α × α
  hash : Digest

/-- `Join::DOMAIN = Felt::new(Operation::Join.op_code() as u64)`; the
opcode value of the `Join` control operation lives outside the sources
and is a parameter. -/
def Join.DOMAIN (joinOpCode : Nat) : Nat := feltNew joinOpCode

/-- Embedded from `join_block.rs`: `Join::new` — the digest is
`merge_in_domain([body[0].hash(), body[1].hash()], Self::DOMAIN)`,
computed at construction. -/
def Join.new {α : Type} (merge_in_domain : List Digest → Nat → Digest)
    (hashOf : α → Digest) (joinOpCode : Nat) (body : α × α) : Join α :=
  { body := body
    hash := merge_in_domain [hashOf body.1, hashOf body.2] (Join.DOMAIN joinOpCode) }

/-- Embedded from `join_block.rs`: `first()` returns the block executed
first. -/
def Join.first {α : Type} (j : Join α) : α := j.body.1

/-- Embedded from `join_block.rs`: `second()` returns the block executed
second. -/
def Join.second {α : Type} (j : Join α) : α := j.body.2

-- CLI DATA (embedded from miden/src/cli/data.rs)

/-- Rust `str::parse::<u64>` on the digit part: one or more ASCII decimal
digits whose value fits in a `u64`. -/
def rustParseDigits (s : List Char) : Option Nat :=
  match parseDecChars s with
  | some v => if v < 2 ^ 64 then some v else none
  | none => none

/-- Rust `str::parse::<u64>`: an optional leading `+` sign, then the
digits. -/
def rustParseU64 : List Char → Option Nat
  | '+' :: r => rustParseDigits r
  | s => rustParseDigits s

/-- Embedded from `data.rs`: the deserialized `InputFile` with its
`stack_init` and optional `advice_tape` vectors of strings. -/
structure InputFile where
  stack_init : List (List Char)
  advice_tape : Option (List (List Char))
  deriving DecidableEq, Repr

/-- The `iter().map(|v| v.parse::<u64>().unwrap()).collect()` pattern of
`data.rs`: parse every entry in order; the panic of `unwrap` on a
non-parsing entry is modelled as `none`. -/
def parseAll : List (List Char) → Option (List Nat)
  | [] => some []
  | s :: r =>
    match rustParseU64 s with
    | none => none
    | some v =>
      match parseAll r with
      | none => none
      | some vs => some (v :: vs)

/-- Embedded from `data.rs`: `InputFile::stack_init` — every entry is
parsed as `u64` with `unwrap`. -/
def InputFile.stack_init_vals (f : InputFile) : Option (List Nat) :=
  parseAll f.stack_init

/-- Embedded from `data.rs`: `InputFile::advice_tape` — `advice_tape`
defaults to the empty vector when absent, then every entry is parsed as
`u64` with `unwrap`. -/
def InputFile.advice_tape_vals (f : InputFile) : Option (List Nat) :=
  parseAll (f.advice_tape.getD [])

/-- Embedded from `data.rs`: `InputFile::read`.  The filesystem and JSON
layers are external and enter as parameters: `exists_at` is
`Path::exists`, `with_inputs_ext` is
`program_path.with_extension("inputs")`, `read_to_string` is
`fs::read_to_string` and `from_json` is `serde_json::from_str`. -/
def InputFile.read (exists_at : List Char → Bool)
    (with_inputs_ext : List Char → List Char)
    (read_to_string : List Char → Except String (List Char))
    (from_json : List Char → Except String InputFile)
    (inputs_path : Option (List Char)) (program_path : List Char) :
    Except String InputFile :=
  if !inputs_path.isSome && !exists_at (with_inputs_ext program_path) then
    .ok { stack_init := [], advice_tape := some [] }
  else
    let path := match inputs_path with
      | some p => p
      | none => with_inputs_ext program_path
    match read_to_string path with
    | .error err => .error ("Failed to open input file `" ++ String.mk path ++ "` - " ++ err)
    | .ok s =>
      match from_json s with
      | .error err => .error ("Failed to deserialize input data - " ++ err)
      | .ok inputs => .ok inputs

-- TOKEN BUILDERS (abbreviations used by the statements of the theorems)

/-- The `end` keyword token. -/
def endTok : List Char := "end".data

/-- The `begin` keyword token. -/
def beginTok : List Char := "begin".data

/-- The `if.true` keyword token. -/
def ifTrueTok : List Char := "if.true".data

/-- The token of an `exec.<label>` call site. -/
def execTok (lbl : List Char) : List Char := "exec.".data ++ lbl

/-- The token of a `proc.<label>` declaration (zero locals). -/
def procTok (lbl : List Char) : List Char := "proc.".data ++ lbl

/-- The token of a `proc.<label>.<locals>` declaration. -/
def procLocalsTok (lbl s : List Char) : List Char := "proc.".data ++ lbl ++ '.' :: s

/-- The token of a `repeat.<count>` opener. -/
def repeatTok (s : List Char) : List Char := "repeat.".data ++ s

-- ================================================================================================
-- LEMMAS
-- ================================================================================================

-- Body algebra

@[simp]
theorem Body.nil_append (b : Body) : Body.nil ++ b = b := rfl

@[simp]
theorem Body.instrC_append (ops : List Operation) (r b : Body) :
    Body.instrC ops r ++ b = Body.instrC ops (r ++ b) := rfl

@[simp]
theorem Body.execC_append (n : List Char) (r b : Body) :
    Body.execC n r ++ b = Body.execC n (r ++ b) := rfl

@[simp]
theorem Body.ifC_append (t f r b : Body) :
    Body.ifC t f r ++ b = Body.ifC t f (r ++ b) := rfl

@[simp]
theorem Body.whileC_append (w r b : Body) :
    Body.whileC w r ++ b = Body.whileC w (r ++ b) := rfl

@[simp]
theorem Body.append_nil (b : Body) : b ++ Body.nil = b := by
  induction b <;> simp_all

theorem Body.append_assoc (a b c : Body) : a ++ b ++ c = a ++ (b ++ c) := by
  induction a <;> simp_all

@[simp]
theorem instrBody_nil : instrBody [] = Body.nil := rfl

@[simp]
theorem instrBody_cons (ops : List Operation) (l : List (List Operation)) :
    instrBody (ops :: l) = Body.instrC ops (instrBody l) := rfl

theorem instrBody_append (a b : List (List Operation)) :
    instrBody (a ++ b) = instrBody a ++ instrBody b := by
  induction a with
  | nil => simp
  | cons ops r ih => simp [ih]

theorem Body.repeatN_instr (n : Nat) (l : List (List Operation)) :
    Body.repeatN n (instrBody l) = instrBody (List.replicate n l).flatten := by
  induction n with
  | zero => simp [Body.repeatN]
  | succ m ih => simp [Body.repeatN, List.replicate_succ, instrBody_append, ih]

-- Comment stripping

theorem stripGo_no_hash (l : List Char) : ∀ b, '#' ∉ stripGo b l := by
  induction l with
  | nil => intro b; cases b <;> simp [stripGo]
  | cons c r ih =>
    intro b
    cases b with
    | false =>
      by_cases hc : c = '#'
      · simp only [stripGo, if_pos hc]
        exact ih true
      · simp only [stripGo, if_neg hc, List.mem_cons, not_or]
        exact ⟨fun h => hc h.symm, ih false⟩
    | true =>
      by_cases hc : c = '\n'
      · subst hc
        rw [show stripGo true ('\n' :: r) = '\n' :: stripGo false r from rfl]
        simp only [List.mem_cons, not_or]
        exact ⟨by decide, ih false⟩
      · simp only [stripGo, if_neg hc]
        exact ih true

theorem stripGo_false_of_no_hash (l : List Char) (h : '#' ∉ l) : stripGo false l = l := by
  induction l with
  | nil => rfl
  | cons c r ih =>
    simp only [List.mem_cons, not_or] at h
    have hc : ¬c = '#' := fun hh => h.1 hh.symm
    simp only [stripGo, if_neg hc]
    rw [ih h.2]

theorem stripComments_idem (l : List Char) :
    stripComments (stripComments l) = stripComments l :=
  stripGo_false_of_no_hash _ (stripGo_no_hash l false)

theorem tokenize_stripComments (cs : List Char) :
    tokenize (stripComments cs) = tokenize cs := by
  simp [tokenize, stripComments, stripGo_false_of_no_hash _ (stripGo_no_hash cs false)]

-- Dot splitting

theorem splitDotGo_no_dot (a : List Char) :
    ∀ cur, (∀ c ∈ a, c ≠ '.') → splitDotGo cur a = [cur.reverse ++ a] := by
  induction a with
  | nil => intro cur _; simp [splitDotGo]
  | cons c r ih =>
    intro cur h
    have hc : ¬c = '.' := h c (List.mem_cons_self c r)
    simp only [splitDotGo, if_neg hc]
    rw [ih (c :: cur) fun d hd => h d (List.mem_cons_of_mem c hd)]
    simp

theorem splitDotGo_dot (a : List Char) :
    ∀ cur rest, (∀ c ∈ a, c ≠ '.') →
      splitDotGo cur (a ++ '.' :: rest) = (cur.reverse ++ a) :: splitDotGo [] rest := by
  induction a with
  | nil => intro cur rest _; simp [splitDotGo]
  | cons c r ih =>
    intro cur rest h
    have hc : ¬c = '.' := h c (List.mem_cons_self c r)
    rw [show (c :: r) ++ '.' :: rest = c :: (r ++ '.' :: rest) from rfl]
    simp only [splitDotGo, if_neg hc]
    rw [ih (c :: cur) rest fun d hd => h d (List.mem_cons_of_mem c hd)]
    simp

theorem splitOnDot_no_dot (a : List Char) (h : ∀ c ∈ a, c ≠ '.') :
    splitOnDot a = [a] := by
  simp [splitOnDot, splitDotGo_no_dot a [] h]

theorem splitOnDot_dot (a rest : List Char) (h : ∀ c ∈ a, c ≠ '.') :
    splitOnDot (a ++ '.' :: rest) = a :: splitDotGo [] rest := by
  simp [splitOnDot, splitDotGo_dot a [] rest h]

-- Characters of labels and decimal parameters

theorem isValidLabel_no_dot (l : List Char) (h : isValidLabel l = true) :
    ∀ c ∈ l, c ≠ '.' := by
  match l with
  | [] => simp [isValidLabel] at h
  | c :: r =>
    simp only [isValidLabel, Bool.and_eq_true, Bool.or_eq_true, List.all_eq_true] at h
    intro d hd
    rcases List.mem_cons.mp hd with hh | hh
    · subst hh
      rcases h.1 with ha | ha
      · intro he; subst he; simp at ha
      · intro he; subst he; simp at ha
    · have := h.2 d hh
      rcases this with ha | ha
      · intro he; subst he; simp at ha
      · intro he; subst he; simp at ha

theorem parseDecGo_digits (s : List Char) :
    ∀ acc n, parseDecGo acc s = some n → ∀ c ∈ s, c.isDigit := by
  induction s with
  | nil => intro _ _ _ c hc; simp at hc
  | cons c r ih =>
    intro acc n h d hd
    by_cases hc : c.isDigit
    · rcases List.mem_cons.mp hd with hh | hh
      · subst hh; exact hc
      · simp only [parseDecGo, if_pos hc] at h
        exact ih _ n h d hh
    · simp [parseDecGo, if_neg hc] at h

theorem parseDecChars_digits (s : List Char) (n : Nat) (h : parseDecChars s = some n) :
    ∀ c ∈ s, c.isDigit := by
  match s with
  | [] => simp [parseDecChars] at h
  | c :: r => exact parseDecGo_digits (c :: r) 0 n h

theorem parseDecChars_no_dot (s : List Char) (n : Nat) (h : parseDecChars s = some n) :
    ∀ c ∈ s, c ≠ '.' := by
  intro c hc he
  subst he
  have := parseDecChars_digits s n h _ hc
  simp at this

theorem parseDecChars_ne_nil (s : List Char) (n : Nat) (h : parseDecChars s = some n) :
    s ≠ [] := by
  intro he; subst he; simp [parseDecChars] at h

-- Classification of the symbolic tokens

theorem classify_endTok : classify endTok = .endA := rfl

theorem classify_ifTrueTok : classify ifTrueTok = .ifA := by decide

theorem classify_execTok (lbl : List Char) (h : isValidLabel lbl = true) :
    classify (execTok lbl) = .execA lbl := by
  have hsplit : splitOnDot (execTok lbl) = ["exec".data, lbl] := by
    rw [show execTok lbl = "exec".data ++ '.' :: lbl from rfl,
        splitOnDot_dot _ _ (by decide),
        show splitDotGo [] lbl = splitOnDot lbl from rfl,
        splitOnDot_no_dot lbl (isValidLabel_no_dot lbl h)]
  unfold classify
  rw [hsplit]
  rfl

theorem classify_repeatTok (s : List Char) (n : Nat) (hs : parseDecChars s = some n)
    (hn : 0 < n) : classify (repeatTok s) = .repeatA n := by
  have hsplit : splitOnDot (repeatTok s) = ["repeat".data, s] := by
    rw [show repeatTok s = "repeat".data ++ '.' :: s from rfl,
        splitOnDot_dot _ _ (by decide),
        show splitDotGo [] s = splitOnDot s from rfl,
        splitOnDot_no_dot s (parseDecChars_no_dot s n hs)]
  have hne1 : ¬repeatTok s = "end".data := by
    rw [show repeatTok s = 'r' :: 'e' :: 'p' :: 'e' :: 'a' :: 't' :: '.' :: s from rfl]
    simp [show ("end".data : List Char) = ['e', 'n', 'd'] from rfl]
  have hne2 : ¬repeatTok s = "else".data := by
    rw [show repeatTok s = 'r' :: 'e' :: 'p' :: 'e' :: 'a' :: 't' :: '.' :: s from rfl]
    simp [show ("else".data : List Char) = ['e', 'l', 's', 'e'] from rfl]
  unfold classify
  rw [if_neg hne1, if_neg hne2, hsplit]
  simp [hs, hn]

-- Body parsing over straight-line token runs

theorem parseBody_instr (A : List (List Char)) :
    ∀ (opsL : List (List Operation)) (rest : List (List Char)) (root : List Char)
      (stack : List Frame) (acc : Body),
      A.map classify = opsL.map TokAction.instrA →
      parseBody root (A ++ rest) stack acc
        = parseBody root rest stack (acc ++ instrBody opsL) := by
  induction A with
  | nil =>
    intro opsL rest root stack acc h
    cases opsL with
    | nil => simp
    | cons x xs => simp at h
  | cons t A' ih =>
    intro opsL rest root stack acc h
    cases opsL with
    | nil => simp at h
    | cons ops opsL' =>
      simp only [List.map_cons, List.cons.injEq] at h
      rw [show (t :: A') ++ rest = t :: (A' ++ rest) from rfl]
      simp only [parseBody, h.1]
      show parseBody root (A' ++ rest) stack (acc ++ Body.instrC ops Body.nil)
        = parseBody root rest stack (acc ++ instrBody (ops :: opsL'))
      rw [ih opsL' rest root stack _ h.2, Body.append_assoc]
      rfl

theorem takeBody_instr (A : List (List Char)) :
    ∀ (opsL : List (List Operation)) (rest : List (List Char)),
      A.map classify = opsL.map TokAction.instrA →
      takeBody (A ++ endTok :: rest) 0 = .ok (A ++ [endTok], rest) := by
  induction A with
  | nil =>
    intro opsL rest _
    rw [List.nil_append]
    simp only [takeBody, classify_endTok]
    rfl
  | cons t A' ih =>
    intro opsL rest h
    cases opsL with
    | nil => simp at h
    | cons ops opsL' =>
      simp only [List.map_cons, List.cons.injEq] at h
      rw [show (t :: A') ++ endTok :: rest = t :: (A' ++ endTok :: rest) from rfl]
      simp only [takeBody, h.1]
      show (fun p => (t :: p.1, p.2)) <$> takeBody (A' ++ endTok :: rest) 0
        = Except.ok ((t :: A') ++ [endTok], rest)
      rw [ih opsL' rest h.2]
      rfl

-- Single-token steps of the body parser

theorem parseBody_exhausted (root : List Char) (stack : List Frame) (acc : Body) :
    parseBody root [] stack acc = .error (closeErr root stack) := rfl

theorem parseBody_end_base (root : List Char) (rest : List (List Char)) (acc : Body) :
    parseBody root (endTok :: rest) [] acc = .ok (acc, rest) := rfl

theorem parseBody_end_ifFrame (root : List Char) (rest : List (List Char))
    (outer : Body) (s : List Frame) (acc : Body) :
    parseBody root (endTok :: rest) (.ifFrame outer :: s) acc
      = parseBody root rest s (outer ++ Body.ifC acc .nil .nil) := rfl

theorem parseBody_end_repFrame (root : List Char) (rest : List (List Char))
    (n : Nat) (outer : Body) (s : List Frame) (acc : Body) :
    parseBody root (endTok :: rest) (.repFrame n outer :: s) acc
      = parseBody root rest s (outer ++ Body.repeatN n acc) := rfl

theorem parseBody_ifTrue (root : List Char) (rest : List (List Char))
    (stack : List Frame) (acc : Body) :
    parseBody root (ifTrueTok :: rest) stack acc
      = parseBody root rest (.ifFrame acc :: stack) .nil := rfl

theorem parseBody_exec (root lbl : List Char) (h : isValidLabel lbl = true)
    (rest : List (List Char)) (stack : List Frame) (acc : Body) :
    parseBody root (execTok lbl :: rest) stack acc
      = parseBody root rest stack (acc ++ Body.execC lbl .nil) := by
  simp only [parseBody, classify_execTok lbl h]

theorem parseBody_repeat (root s : List Char) (n : Nat) (hs : parseDecChars s = some n)
    (hn : 0 < n) (rest : List (List Char)) (stack : List Frame) (acc : Body) :
    parseBody root (repeatTok s :: rest) stack acc
      = parseBody root rest (.repFrame n acc :: stack) .nil := by
  simp only [parseBody, classify_repeatTok s n hs hn]

-- Declarations

theorem parseDecls_begin (f : Nat) (tbl : ProcTable) (rest : List (List Char)) :
    parseDecls (f + 1) (beginTok :: rest) tbl = .ok (tbl, beginTok :: rest) := rfl

-- Inlining

theorem expandBody_instr (tbl : ProcTable) (l : List (List Operation)) :
    expandBody tbl (instrBody l) = .ok (instrBody l) := by
  induction l with
  | nil => rfl
  | cons ops r ih =>
    show (fun r' => Body.instrC ops r') <$> expandBody tbl (instrBody r) = _
    rw [ih]
    rfl

theorem expandBody_append (tbl : ProcTable) (a : Body) :
    ∀ (b a' b' : Body), expandBody tbl a = .ok a' → expandBody tbl b = .ok b' →
      expandBody tbl (a ++ b) = .ok (a' ++ b') := by
  induction a with
  | nil =>
    intro b a' b' ha hb
    simp only [expandBody] at ha
    cases ha
    simpa using hb
  | instrC ops r ih =>
    intro b a' b' ha hb
    show (fun r' => Body.instrC ops r') <$> expandBody tbl (r ++ b) = _
    have hr : ∃ ra, expandBody tbl r = .ok ra ∧ a' = Body.instrC ops ra := by
      revert ha
      show (fun r' => Body.instrC ops r') <$> expandBody tbl r = .ok a' → _
      cases hre : expandBody tbl r with
      | error e => intro hh; exact absurd hh (by simp [Except.map])
      | ok ra => intro hh; exact ⟨ra, rfl, by simpa [Except.map] using hh.symm⟩
    obtain ⟨ra, hra, ha'⟩ := hr
    rw [ih b ra b' hra hb]
    subst ha'
    rfl
  | execC n r ih =>
    intro b a' b' ha hb
    revert ha
    show (match lookupProc tbl n with
      | none => Except.error (AsmError.undefinedProcedure n)
      | some (k, body) => (fun r' => frameBody k body ++ r') <$> expandBody tbl r)
        = .ok a' → expandBody tbl (Body.execC n r ++ b) = .ok (a' ++ b')
    cases hl : lookupProc tbl n with
    | none => intro hh; exact absurd hh (by simp)
    | some e =>
      obtain ⟨k, body⟩ := e
      intro hh
      have hr : ∃ ra, expandBody tbl r = .ok ra ∧ a' = frameBody k body ++ ra := by
        revert hh
        cases hre : expandBody tbl r with
        | error e => intro hh; exact absurd hh (by simp [Except.map])
        | ok ra => intro hh; exact ⟨ra, rfl, by simpa [Except.map] using hh.symm⟩
      obtain ⟨ra, hra, ha'⟩ := hr
      show (match lookupProc tbl n with
        | none => Except.error (AsmError.undefinedProcedure n)
        | some (k, body) => (fun r' => frameBody k body ++ r') <$> expandBody tbl (r ++ b))
          = .ok (a' ++ b')
      rw [hl, ih b ra b' hra hb]
      subst ha'
      show Except.ok (frameBody k body ++ (ra ++ b')) = _
      rw [Body.append_assoc]
  | ifC t f r iht ihf ihr =>
    intro b a' b' ha hb
    revert ha
    show (match expandBody tbl t with
      | Except.error e => Except.error e
      | Except.ok t' =>
        match expandBody tbl f with
        | Except.error e => Except.error e
        | Except.ok f' => (fun r' => Body.ifC t' f' r') <$> expandBody tbl r) = .ok a' → _
    cases ht : expandBody tbl t with
    | error e => intro hh; exact absurd hh (by simp)
    | ok t' =>
      cases hf : expandBody tbl f with
      | error e => intro hh; exact absurd hh (by simp)
      | ok f' =>
        intro hh
        have hr : ∃ ra, expandBody tbl r = .ok ra ∧ a' = Body.ifC t' f' ra := by
          revert hh
          cases hre : expandBody tbl r with
          | error e => intro hh; exact absurd hh (by simp [Except.map])
          | ok ra => intro hh; exact ⟨ra, rfl, by simpa [Except.map] using hh.symm⟩
        obtain ⟨ra, hra, ha'⟩ := hr
        show (match expandBody tbl t with
          | Except.error e => Except.error e
          | Except.ok t' =>
            match expandBody tbl f with
            | Except.error e => Except.error e
            | Except.ok f' => (fun r' => Body.ifC t' f' r') <$> expandBody tbl (r ++ b)) = _
        rw [ht, hf, ihr b ra b' hra hb]
        subst ha'
        rfl
  | whileC w r ihw ihr =>
    intro b a' b' ha hb
    revert ha
    show (match expandBody tbl w with
      | Except.error e => Except.error e
      | Except.ok w' => (fun r' => Body.whileC w' r') <$> expandBody tbl r) = .ok a' → _
    cases hw : expandBody tbl w with
    | error e => intro hh; exact absurd hh (by simp)
    | ok w' =>
      intro hh
      have hr : ∃ ra, expandBody tbl r = .ok ra ∧ a' = Body.whileC w' ra := by
        revert hh
        cases hre : expandBody tbl r with
        | error e => intro hh; exact absurd hh (by simp [Except.map])
        | ok ra => intro hh; exact ⟨ra, rfl, by simpa [Except.map] using hh.symm⟩
      obtain ⟨ra, hra, ha'⟩ := hr
      show (match expandBody tbl w with
        | Except.error e => Except.error e
        | Except.ok w' => (fun r' => Body.whileC w' r') <$> expandBody tbl (r ++ b)) = _
      rw [hw, ihr b ra b' hra hb]
      subst ha'
      rfl

theorem expandBody_exec_nil (tbl : ProcTable) (n : List Char) (k : Nat) (body : Body)
    (h : lookupProc tbl n = some (k, body)) :
    expandBody tbl (Body.execC n .nil) = .ok (frameBody k body) := by
  show (match lookupProc tbl n with
    | none => Except.error (AsmError.undefinedProcedure n)
    | some (k, body) => (fun r' => frameBody k body ++ r') <$> expandBody tbl Body.nil)
      = .ok (frameBody k body)
  rw [h]
  show Except.ok (frameBody k body ++ Body.nil) = _
  rw [Body.append_nil]

-- Block building over straight-line bodies

theorem buildGo_instr (l : List (List Operation)) :
    ∀ (rest : Body) (buf : List Operation) (blocks : List CodeBlock),
      buildGo (instrBody l ++ rest) buf blocks = buildGo rest (buf ++ l.flatten) blocks := by
  induction l with
  | nil => intro rest buf blocks; simp
  | cons ops r ih =>
    intro rest buf blocks
    show buildGo (Body.instrC ops (instrBody r ++ rest)) buf blocks = _
    rw [show buildGo (Body.instrC ops (instrBody r ++ rest)) buf blocks
        = buildGo (instrBody r ++ rest) (buf ++ ops) blocks from rfl]
    rw [ih rest (buf ++ ops) blocks]
    simp [List.append_assoc]

theorem buildBody_instr (l : List (List Operation)) (h : l.flatten ≠ []) :
    buildBody (instrBody l) = .ok (.span l.flatten) := by
  unfold buildBody
  rw [show instrBody l = instrBody l ++ Body.nil by rw [Body.append_nil]]
  rw [buildGo_instr l Body.nil [] []]
  show combineBlocks (flushBuf l.flatten []) = _
  unfold flushBuf
  rw [if_neg (by simpa using h)]
  rfl

-- Local frames

theorem frameBody_zero (body : Body) : frameBody 0 body = body := rfl

theorem frameBody_instr (k : Nat) (hk : k ≠ 0) (l : List (List Operation)) :
    frameBody k (instrBody l)
      = instrBody ([[.push k, .fmpupdate]] ++ l ++ [[.push (P - k), .fmpupdate]]) := by
  unfold frameBody
  rw [if_neg hk]
  simp [instrBody_append]

-- The left-leaning shape of the produced trees

theorem noRightJoin_foldl (l : List CodeBlock) :
    ∀ acc, (∀ x ∈ l, noRightJoin x = true ∧ x.isJoin = false) → noRightJoin acc = true →
      noRightJoin (l.foldl .join acc) = true := by
  induction l with
  | nil => intro acc _ ha; simpa using ha
  | cons x xs ih =>
    intro acc h ha
    have hx := h x (List.mem_cons_self x xs)
    apply ih
    · exact fun y hy => h y (List.mem_cons_of_mem x hy)
    · show noRightJoin (.join acc x) = true
      simp only [noRightJoin, Bool.and_eq_true, Bool.not_eq_true']
      exact ⟨⟨ha, hx.1⟩, hx.2⟩

theorem combineBlocks_nrj (l : List CodeBlock) (cb : CodeBlock)
    (h : ∀ x ∈ l, noRightJoin x = true ∧ x.isJoin = false)
    (hc : combineBlocks l = .ok cb) : noRightJoin cb = true := by
  cases l with
  | nil => simp [combineBlocks] at hc
  | cons b rest =>
    simp only [combineBlocks, Except.ok.injEq] at hc
    subst hc
    exact noRightJoin_foldl rest b (fun y hy => h y (List.mem_cons_of_mem b hy))
      (h b (List.mem_cons_self b rest)).1

theorem flushBuf_mem (buf : List Operation) (blocks : List CodeBlock) (x : CodeBlock)
    (hx : x ∈ flushBuf buf blocks) : x ∈ blocks ∨ x = .span buf := by
  unfold flushBuf at hx
  by_cases hb : buf.isEmpty
  · rw [if_pos hb] at hx; exact Or.inl hx
  · rw [if_neg hb] at hx
    rcases List.mem_append.mp hx with hh | hh
    · exact Or.inl hh
    · exact Or.inr (by simpa using hh)

theorem buildGo_nrj (body : Body) :
    ∀ (buf : List Operation) (blocks : List CodeBlock) (cb : CodeBlock),
      (∀ x ∈ blocks, noRightJoin x = true ∧ x.isJoin = false) →
      buildGo body buf blocks = .ok cb → noRightJoin cb = true := by
  induction body with
  | nil =>
    intro buf blocks cb h hb
    apply combineBlocks_nrj _ _ _ hb
    intro x hx
    rcases flushBuf_mem buf blocks x hx with hh | hh
    · exact h x hh
    · subst hh; exact ⟨rfl, rfl⟩
  | instrC ops r ih =>
    intro buf blocks cb h hb
    exact ih (buf ++ ops) blocks cb h hb
  | execC n r ih =>
    intro buf blocks cb h hb
    exact Except.noConfusion hb
  | ifC t f r iht ihf ihr =>
    intro buf blocks cb h hb
    simp only [buildGo] at hb
    rw [show (if t = Body.nil then (Except.ok (CodeBlock.span [Operation.noop]) :
            Except AsmError CodeBlock) else buildGo t [] []) = buildArmR t from rfl,
        show (if f = Body.nil then (Except.ok (CodeBlock.span [Operation.noop]) :
            Except AsmError CodeBlock) else buildGo f [] []) = buildArmR f from rfl] at hb
    revert hb
    cases hmt : buildArmR t with
    | error e => intro hb; exact Except.noConfusion hb
    | ok tb =>
      have htb : noRightJoin tb = true := by
        cases t with
        | nil =>
          have : tb = CodeBlock.span [.noop] := by simpa [buildArmR] using hmt.symm
          subst this; rfl
        | instrC a b => simp only [buildArmR] at hmt; exact iht [] [] tb (by simp) hmt
        | execC a b => simp only [buildArmR] at hmt; exact iht [] [] tb (by simp) hmt
        | ifC a b c => simp only [buildArmR] at hmt; exact iht [] [] tb (by simp) hmt
        | whileC a b => simp only [buildArmR] at hmt; exact iht [] [] tb (by simp) hmt
      cases hmf : buildArmR f with
      | error e => intro hb; exact Except.noConfusion hb
      | ok fb =>
        have hfb : noRightJoin fb = true := by
          cases f with
          | nil =>
            have : fb = CodeBlock.span [.noop] := by simpa [buildArmR] using hmf.symm
            subst this; rfl
          | instrC a b =>
            simp only [buildArmR] at hmf; exact ihf [] [] fb (by simp) hmf
          | execC a b =>
            simp only [buildArmR] at hmf; exact ihf [] [] fb (by simp) hmf
          | ifC a b c =>
            simp only [buildArmR] at hmf; exact ihf [] [] fb (by simp) hmf
          | whileC a b =>
            simp only [buildArmR] at hmf; exact ihf [] [] fb (by simp) hmf
        intro hb
        apply ihr [] (flushBuf buf blocks ++ [CodeBlock.split tb fb]) cb _ hb
        intro x hx
        rcases List.mem_append.mp hx with hh | hh
        · rcases flushBuf_mem buf blocks x hh with hg | hg
          · exact h x hg
          · subst hg; exact ⟨rfl, rfl⟩
        · have : x = CodeBlock.split tb fb := by simpa using hh
          subst this
          constructor
          · simp only [noRightJoin, Bool.and_eq_true]
            exact ⟨htb, hfb⟩
          · rfl
  | whileC w r ihw ihr =>
    intro buf blocks cb h hb
    simp only [buildGo] at hb
    revert hb
    cases hmw : buildGo w [] [] with
    | error e => intro hb; exact Except.noConfusion hb
    | ok bb =>
      have hbb : noRightJoin bb = true := ihw _ _ _ (by simp) hmw
      intro hb
      apply ihr [] (flushBuf buf blocks ++ [CodeBlock.loop bb]) cb _ hb
      intro x hx
      rcases List.mem_append.mp hx with hh | hh
      · rcases flushBuf_mem buf blocks x hh with hg | hg
        · exact h x hg
        · subst hg; exact ⟨rfl, rfl⟩
      · have : x = CodeBlock.loop bb := by simpa using hh
        subst this
        exact ⟨by simpa [noRightJoin] using hbb, rfl⟩

theorem buildBody_nrj (b : Body) (cb : CodeBlock) (h : buildBody b = .ok cb) :
    noRightJoin cb = true :=
  buildGo_nrj b [] [] cb (by simp) h

theorem compileTokens_nrj (toks : List (List Char)) (cb : CodeBlock)
    (h : compileTokens toks = .ok cb) : noRightJoin cb = true := by
  unfold compileTokens at h
  split at h
  · exact Except.noConfusion h
  · split at h
    · exact Except.noConfusion h
    · split at h
      · exact Except.noConfusion h
      · split at h
        · split at h
          · exact Except.noConfusion h
          · split at h
            · split at h
              · exact Except.noConfusion h
              · exact buildBody_nrj _ _ h
            · exact Except.noConfusion h
        · exact Except.noConfusion h

theorem compileChars_nrj (cs : List Char) (cb : CodeBlock)
    (h : compileChars cs = .ok cb) : noRightJoin cb = true :=
  compileTokens_nrj _ _ h

-- Staging of the top-level compilation

theorem parseDecls_proc_step (t : List Char) (ps : List (List Char)) (lbl : List Char) (k : Nat)
    (rest rest' bodyToks : List (List Char)) (tbl : ProcTable)
    (nodes expanded : Body) (fuel : Nat)
    (hsplit : splitOnDot t = "proc".data :: ps)
    (hheader : procHeader t ps = .ok (lbl, k))
    (hdup : lookupProc tbl lbl = none)
    (htake : takeBody rest 0 = .ok (bodyToks, rest'))
    (hpb : parseBody "proc".data bodyToks [] .nil = .ok (nodes, []))
    (hexp : expandBody tbl nodes = .ok expanded) :
    parseDecls (fuel + 1) (t :: rest) tbl
      = parseDecls fuel rest' (tbl ++ [(lbl, k, expanded)]) := by
  simp only [parseDecls, hsplit, hheader, hdup, htake, hpb, hexp, Option.isSome_none,
    Bool.false_eq_true, if_false, if_pos rfl]
  simp

theorem compileTokens_stage2 (t0 : List Char) (ts : List (List Char))
    (tbl : ProcTable) (R : List (List Char)) (nodes expanded : Body)
    (hd : parseDecls ((t0 :: ts).length + 1) (t0 :: ts) [] = .ok (tbl, beginTok :: R))
    (hp : parseBody "begin".data R [] .nil = .ok (nodes, []))
    (he : expandBody tbl nodes = .ok expanded) :
    compileTokens (t0 :: ts) = buildBody expanded := by
  simp only [compileTokens, hd, hp, he, List.isEmpty_nil, if_pos rfl]
  rfl

-- CLI input parsing

theorem parseAll_of_map_some (l : List (List Char)) :
    ∀ vs : List Nat, l.map rustParseU64 = vs.map some → parseAll l = some vs := by
  induction l with
  | nil =>
    intro vs h
    cases vs with
    | nil => rfl
    | cons v vr => simp at h
  | cons s r ih =>
    intro vs h
    cases vs with
    | nil => simp at h
    | cons v vr =>
      simp only [List.map_cons, List.cons.injEq] at h
      show (match rustParseU64 s with
        | none => none
        | some v =>
          match parseAll r with
          | none => none
          | some vs => some (v :: vs)) = some (v :: vr)
      rw [h.1, ih vr h.2]

-- ================================================================================================
-- CLAIMS
-- ================================================================================================

/-- C5: for every pair of code blocks `a` and `b`, the digest of
`Join::new([a, b])` equals `merge_in_domain([hash(a), hash(b)], D)` where
the domain `D` is the field element whose value is the opcode of the
`Join` control operation (`Felt::new` of the opcode); the digest is
computed eagerly at construction, and `hash()`, `first()` and `second()`
return that digest, `a` and `b` respectively, unchanged thereafter. -/
theorem c5_join_new_digest :
    ∀ (α : Type) (merge_in_domain : List Digest → Nat → Digest) (hashOf : α → Digest)
      (joinOpCode : Nat) (a b : α),
      (Join.new merge_in_domain hashOf joinOpCode (a, b)).hash
          = merge_in_domain [hashOf a, hashOf b] (feltNew joinOpCode)
        ∧ (Join.new merge_in_domain hashOf joinOpCode (a, b)).first = a
        ∧ (Join.new merge_in_domain hashOf joinOpCode (a, b)).second = b :=
  fun _ _ _ _ _ _ => ⟨rfl, rfl, rfl⟩

/-- C8: a `#` starts a comment consumed through the newline, comments are
permitted wherever whitespace is, and compilation is invariant under
comment stripping: `compile (strip_comments S) = compile S` for every
source, in particular for the comment placements of the test suite
(inside the program, before `begin`, after the terminal `end`). -/
theorem c8_comments_invisible :
    (∀ cs : List Char, compileChars (stripComments cs) = compileChars cs)
    ∧ (∀ s : String, compile (String.mk (stripComments s.data)) = compile s)
    ∧ compile "begin # simple comment \n push.1 push.2 add end"
        = compile "begin push.1 push.2 add end"
    ∧ compile " # starting comment \n begin push.1 push.2 add end"
        = compile "begin push.1 push.2 add end"
    ∧ compile "begin push.1 push.2 add end # closing comment"
        = compile "begin push.1 push.2 add end" := by
  have huniv : ∀ cs : List Char, compileChars (stripComments cs) = compileChars cs := by
    intro cs
    unfold compileChars
    rw [tokenize_stripComments cs]
  refine ⟨huniv, ?_, by decide, by decide, by decide⟩
  intro s
  exact huniv s.data

/-- C9: whenever every entry of `stack_init` (respectively of the
`advice_tape`, which defaults to the empty vector) parses as a decimal
`u64`, the accessor returns exactly the parsed values in order; on an
entry that does not parse, the accessor panics through `unwrap`
(modelled as `none`), so the accessors are total only under the
all-entries-parse precondition. -/
theorem c9_input_accessors :
    (∀ (f : InputFile) (vs : List Nat),
        f.stack_init.map rustParseU64 = vs.map some → f.stack_init_vals = some vs)
    ∧ (∀ (f : InputFile) (vs : List Nat),
        (f.advice_tape.getD []).map rustParseU64 = vs.map some →
          f.advice_tape_vals = some vs)
    ∧ (InputFile.mk ["12".data, "x7".data] none).stack_init_vals = none
    ∧ (InputFile.mk [] (some ["9y".data])).advice_tape_vals = none := by
  refine ⟨?_, ?_, by decide, by decide⟩
  · intro f vs h
    exact parseAll_of_map_some _ vs h
  · intro f vs h
    exact parseAll_of_map_some _ vs h

/-- Witness for C9 at a concrete input file. -/
theorem c9_input_accessors_witness :
    (InputFile.mk ["12".data, "+34".data] (some ["7".data])).stack_init_vals = some [12, 34]
    ∧ (InputFile.mk ["12".data, "+34".data] (some ["7".data])).advice_tape_vals = some [7] :=
  ⟨c9_input_accessors.1 _ [12, 34] (by decide),
   c9_input_accessors.2.1 _ [7] (by decide)⟩

/-- C10: when no explicit inputs path is given and no file exists at the
program path with its extension replaced by `inputs`, `InputFile::read`
returns `Ok` with an empty `stack_init` and `advice_tape = Some([])`,
whatever the file-reading and JSON layers do (they are universally
quantified, so no file is opened or parsed). -/
theorem c10_read_missing_default :
    ∀ (exists_at : List Char → Bool) (with_inputs_ext : List Char → List Char)
      (read_to_string : List Char → Except String (List Char))
      (from_json : List Char → Except String InputFile) (program_path : List Char),
      exists_at (with_inputs_ext program_path) = false →
      InputFile.read exists_at with_inputs_ext read_to_string from_json none program_path
        = .ok { stack_init := [], advice_tape := some [] } := by
  intro ea wie rts fj pp h
  simp [InputFile.read, h]

/-- Witness for C10 at concrete filesystem and JSON layers. -/
theorem c10_read_missing_default_witness :
    InputFile.read (fun _ => false) (fun p => p)
      (fun _ => .error "boom") (fun _ => .error "boom") none "prog.masm".data
      = .ok { stack_init := [], advice_tape := some [] } :=
  c10_read_missing_default _ _ _ _ _ rfl

/-- C2 counterexample: on `begin push.1 add if.true mul` the program body
is exhausted with an open `if.true` frame, and the message is
"if without matching else/end" — not the "<kind> without matching end"
form the claim requires for every frame kind. -/
theorem c2_counterexample :
    compile "begin push.1 add if.true mul" = .error .unmatchedIf
    ∧ errMsg .unmatchedIf = "if without matching else/end"
    ∧ "if without matching else/end" ≠ "if without matching end"
    ∧ "if without matching else/end" ≠ "if.true without matching end" := by
  refine ⟨by decide, rfl, by decide, by decide⟩

/-- C2 (amended): when the body is exhausted with an open frame, the error
reports the innermost open construct: `begin`, `while.true` and
`repeat.N` give `MissingEndFor` with message "<kind> without matching
end" (kinds `begin`, `while`, `repeat`); an open `if.true` frame gives
"if without matching else/end" and an open `else` gives "else without
matching end". -/
theorem c2_unclosed_construct_errors :
    compile "begin add" = .error (.missingEndFor "begin".data)
    ∧ errMsg (.missingEndFor "begin".data) = "begin without matching end"
    ∧ compile "begin push.1 add while.true mul" = .error (.missingEndFor "while".data)
    ∧ errMsg (.missingEndFor "while".data) = "while without matching end"
    ∧ compile "begin push.1 add repeat.10 mul" = .error (.missingEndFor "repeat".data)
    ∧ errMsg (.missingEndFor "repeat".data) = "repeat without matching end"
    ∧ compile "begin push.1 add if.true mul" = .error .unmatchedIf
    ∧ errMsg .unmatchedIf = "if without matching else/end"
    ∧ compile "begin push.1 add if.true mul else add" = .error .danglingElseNoEnd
    ∧ errMsg .danglingElseNoEnd = "else without matching end"
    ∧ (∀ (root : List Char) (stack : List Frame) (acc : Body),
        parseBody root [] stack acc = .error (closeErr root stack))
    ∧ (∀ (root : List Char) (outer : Body) (s : List Frame),
        closeErr root [] = .missingEndFor root
        ∧ closeErr root (.whileFrame outer :: s) = .missingEndFor "while".data
        ∧ closeErr root (.repFrame 2 outer :: s) = .missingEndFor "repeat".data
        ∧ closeErr root (.ifFrame outer :: s) = .unmatchedIf
        ∧ closeErr root (.elseFrame outer outer :: s) = .danglingElseNoEnd) := by
  refine ⟨by decide, rfl, by decide, rfl, by decide, rfl, by decide, rfl, by decide, rfl,
    fun root stack acc => rfl, fun root outer s => ⟨rfl, rfl, rfl, rfl, rfl⟩⟩

/-- C7: an `if.true <T> end` with no `else` parses to an if node whose
false arm is empty, and building such a node produces a `Split` whose
false arm is `Span{noop}`; on the test source the result prints as
`if.true <then> else span noop end end` inside the program, and every
`Split` has both arms by construction. -/
theorem c7_if_no_else_noop :
    (∀ (root : List Char) (rest : List (List Char)) (stack : List Frame) (acc : Body)
        (T : List (List Char)) (opsT : List (List Operation)),
        T.map classify = opsT.map TokAction.instrA →
        parseBody root (ifTrueTok :: T ++ endTok :: rest) stack acc
          = parseBody root rest stack (acc ++ Body.ifC (instrBody opsT) .nil .nil))
    ∧ (∀ (t r : Body) (buf : List Operation) (blocks : List CodeBlock) (tb : CodeBlock),
        buildArmR t = .ok tb →
        buildGo (Body.ifC t .nil r) buf blocks
          = buildGo r [] (flushBuf buf blocks ++ [.split tb (.span [.noop])]))
    ∧ compile "begin push.2 push.3 if.true add end end"
        = .ok (.join (.span [.push 2, .push 3]) (.split (.span [.add]) (.span [.noop])))
    ∧ programText (.join (.span [.push 2, .push 3]) (.split (.span [.add]) (.span [.noop])))
        = "begin join span push(2) push(3) end if.true span add end else span noop end end end end"
    ∧ (∀ t f : CodeBlock, (CodeBlock.split t f).children = [t, f]) := by
  refine ⟨?_, ?_, by decide, by decide, fun t f => rfl⟩
  · intro root rest stack acc T opsT hT
    rw [List.cons_append, parseBody_ifTrue,
      parseBody_instr T opsT (endTok :: rest) root (.ifFrame acc :: stack) .nil hT,
      Body.nil_append, parseBody_end_ifFrame]
  · intro t r buf blocks tb htb
    simp only [buildGo]
    rw [show (if t = Body.nil then (Except.ok (CodeBlock.span [Operation.noop]) :
        Except AsmError CodeBlock) else buildGo t [] []) = buildArmR t from rfl, htb]
    simp

/-- Witness for C7 at a concrete `if.true add end` body. -/
theorem c7_if_no_else_noop_witness :
    parseBody beginTok (ifTrueTok :: ["add".data] ++ endTok :: []) [] .nil
      = parseBody beginTok [] [] (Body.nil ++ Body.ifC (instrBody [[.add]]) .nil .nil)
    ∧ buildGo (Body.ifC (.instrC [.add] .nil) .nil .nil) [] []
      = buildGo .nil [] (flushBuf [] [] ++ [.split (.span [.add]) (.span [.noop])]) :=
  ⟨c7_if_no_else_noop.1 beginTok [] [] .nil ["add".data] [[.add]] (by decide),
   c7_if_no_else_noop.2.1 (.instrC [.add] .nil) .nil [] [] (.span [.add]) (by decide)⟩

/-- C6: `repeat.N <B> end` with a straight-line body `B` and positive `N`
creates no `Loop` and no new block: parsing splices `N` copies of the
lowered body operations into the surrounding accumulation (so they join
the current span), and `repeat.2 push.8` contributes `push(8) push(8)` to
the surrounding span. -/
theorem c6_repeat_unrolls :
    (∀ (root s : List Char) (n : Nat) (rest : List (List Char)) (stack : List Frame)
        (acc : Body) (B : List (List Char)) (opsB : List (List Operation)),
        parseDecChars s = some n → 0 < n →
        B.map classify = opsB.map TokAction.instrA →
        parseBody root (repeatTok s :: B ++ endTok :: rest) stack acc
          = parseBody root rest stack (acc ++ instrBody (List.replicate n opsB).flatten))
    ∧ compile "begin mul repeat.2 push.8 end end" = .ok (.span [.mul, .push 8, .push 8]) := by
  refine ⟨?_, by decide⟩
  intro root s n rest stack acc B opsB hs hn hB
  rw [List.cons_append, parseBody_repeat root s n hs hn,
    parseBody_instr B opsB (endTok :: rest) root (.repFrame n acc :: stack) .nil hB,
    Body.nil_append, parseBody_end_repFrame, Body.repeatN_instr]

/-- Witness for C6 at `repeat.2 push.8 end`. -/
theorem c6_repeat_unrolls_witness :
    parseBody beginTok (repeatTok "2".data :: ["push.8".data] ++ endTok :: []) [] .nil
      = parseBody beginTok [] [] (Body.nil ++ instrBody (List.replicate 2 [[.push 8]]).flatten) :=
  c6_repeat_unrolls.1 beginTok "2".data 2 [] [] .nil ["push.8".data] [[.push 8]]
    (by decide) (by decide) (by decide)

/-- C4: every `Join` has exactly two children (it is binary by
construction); three or more sequential sibling blocks are combined by
the left-leaning binary fold `Join(Join(a, b), c)…` applied left to
right; and no right-leaning `Join` composition occurs in any compiled
output (the second child of every `Join` in a compiled program is never
itself a `Join`), as the nested-control-blocks test tree shows
concretely. -/
theorem c4_join_left_leaning :
    (∀ a b : CodeBlock, (CodeBlock.join a b).children.length = 2)
    ∧ (∀ (a b c : CodeBlock) (rest : List CodeBlock),
        combineBlocks (a :: b :: c :: rest) = .ok ((c :: rest).foldl .join (.join a b)))
    ∧ (∀ (cs : List Char) (cb : CodeBlock), compileChars cs = .ok cb → noRightJoin cb = true)
    ∧ compile "begin push.2 push.3 if.true add while.true push.7 push.11 add end else mul repeat.2 push.8 end if.true mul end end push.3 add end"
        = .ok (.join
            (.join (.span [.push 2, .push 3])
              (.split (.join (.span [.add]) (.loop (.span [.push 7, .push 11, .add])))
                (.join (.span [.mul, .push 8, .push 8])
                  (.split (.span [.mul]) (.span [.noop])))))
            (.span [.push 3, .add])) := by
  refine ⟨fun a b => rfl, fun a b c rest => rfl, ?_, by decide⟩
  exact fun cs cb h => compileChars_nrj cs cb h

/-- Witness for C4's invariant at a concrete compiled program. -/
theorem c4_join_left_leaning_witness :
    noRightJoin (.join (.span [.add]) (.split (.span [.mul]) (.span [.noop]))) = true :=
  c4_join_left_leaning.2.2.1 "begin add if.true mul end end".data
    (.join (.span [.add]) (.split (.span [.mul]) (.span [.noop]))) (by decide)

/-- C3: for a procedure `f` with zero locals and straight-line lowered
bodies, compiling `proc.f A end begin B exec.f C end` yields exactly the
same result as compiling `begin B A C end`; when the combined operation
run is non-empty both compile to the single span holding the caller's
operations with the callee's spliced in at the call site — no `Join`
boundary — and this holds through nested `exec` calls as the
two-procedure test shows. -/
theorem c3_exec_inlines_structurally :
    (∀ (lbl : List Char) (A B C : List (List Char))
        (opsA opsB opsC : List (List Operation)),
        isValidLabel lbl = true →
        A.map classify = opsA.map TokAction.instrA →
        B.map classify = opsB.map TokAction.instrA →
        C.map classify = opsC.map TokAction.instrA →
        compileTokens (procTok lbl ::
            (A ++ (endTok :: (beginTok :: (B ++ (execTok lbl :: (C ++ [endTok])))))))
          = compileTokens (beginTok :: (B ++ (A ++ (C ++ [endTok]))))
        ∧ (opsB.flatten ++ opsA.flatten ++ opsC.flatten ≠ [] →
            compileTokens (procTok lbl ::
                (A ++ (endTok :: (beginTok :: (B ++ (execTok lbl :: (C ++ [endTok])))))))
              = .ok (.span (opsB.flatten ++ opsA.flatten ++ opsC.flatten))))
    ∧ compile "proc.foo push.3 push.7 mul end proc.bar push.5 exec.foo add end begin push.2 push.4 add exec.foo push.11 exec.bar sub end"
        = .ok (.span [.push 2, .push 4, .add, .push 3, .push 7, .mul, .push 11, .push 5,
            .push 3, .push 7, .mul, .add, .neg, .add]) := by
  refine ⟨?_, by decide⟩
  intro lbl A B C opsA opsB opsC hlbl hA hB hC
  have hsplitP : splitOnDot (procTok lbl) = ["proc".data, lbl] := by
    rw [show procTok lbl = "proc".data ++ '.' :: lbl from rfl,
        splitOnDot_dot _ _ (by decide),
        show splitDotGo [] lbl = splitOnDot lbl from rfl,
        splitOnDot_no_dot lbl (isValidLabel_no_dot lbl hlbl)]
  have hheader : procHeader (procTok lbl) [lbl] = .ok (lbl, 0) := by
    simp [procHeader, hlbl]
  have htake : takeBody (A ++ (endTok :: (beginTok :: (B ++ (execTok lbl :: (C ++ [endTok])))))) 0
      = .ok (A ++ [endTok], beginTok :: (B ++ (execTok lbl :: (C ++ [endTok])))) :=
    takeBody_instr A opsA _ hA
  have hpb : parseBody "proc".data (A ++ [endTok]) [] .nil = .ok (instrBody opsA, []) := by
    rw [parseBody_instr A opsA [endTok] "proc".data [] .nil hA, Body.nil_append,
      parseBody_end_base]
  have hexpA : expandBody [] (instrBody opsA) = .ok (instrBody opsA) := expandBody_instr [] opsA
  have hd : parseDecls ((procTok lbl ::
        (A ++ (endTok :: (beginTok :: (B ++ (execTok lbl :: (C ++ [endTok]))))))).length + 1)
        (procTok lbl :: (A ++ (endTok :: (beginTok :: (B ++ (execTok lbl :: (C ++ [endTok])))))))
        []
      = .ok ([(lbl, 0, instrBody opsA)],
          beginTok :: (B ++ (execTok lbl :: (C ++ [endTok])))) := by
    rw [show (procTok lbl ::
        (A ++ (endTok :: (beginTok :: (B ++ (execTok lbl :: (C ++ [endTok]))))))).length + 1
      = (A ++ (endTok :: (beginTok :: (B ++ (execTok lbl :: (C ++ [endTok])))))).length + 1 + 1
      from by simp]
    rw [parseDecls_proc_step (procTok lbl) [lbl] lbl 0
      (A ++ (endTok :: (beginTok :: (B ++ (execTok lbl :: (C ++ [endTok]))))))
      (beginTok :: (B ++ (execTok lbl :: (C ++ [endTok])))) (A ++ [endTok]) []
      (instrBody opsA) (instrBody opsA)
      ((A ++ (endTok :: (beginTok :: (B ++ (execTok lbl :: (C ++ [endTok])))))).length + 1)
      hsplitP hheader rfl htake hpb hexpA]
    rw [List.nil_append]
    exact parseDecls_begin _ [(lbl, 0, instrBody opsA)] _
  have hp : parseBody "begin".data (B ++ (execTok lbl :: (C ++ [endTok]))) [] .nil
      = .ok (((instrBody opsB ++ Body.execC lbl .nil) ++ instrBody opsC), []) := by
    rw [parseBody_instr B opsB (execTok lbl :: (C ++ [endTok])) "begin".data [] .nil hB,
      Body.nil_append, parseBody_exec "begin".data lbl hlbl,
      parseBody_instr C opsC [endTok] "begin".data [] _ hC, parseBody_end_base]
  have hlook : lookupProc [(lbl, 0, instrBody opsA)] lbl = some (0, instrBody opsA) := by
    simp [lookupProc]
  have hexec : expandBody [(lbl, 0, instrBody opsA)] (Body.execC lbl .nil)
      = .ok (instrBody opsA) :=
    expandBody_exec_nil [(lbl, 0, instrBody opsA)] lbl 0 (instrBody opsA) hlook
  have hBexp : expandBody [(lbl, 0, instrBody opsA)] (instrBody opsB) = .ok (instrBody opsB) :=
    expandBody_instr _ opsB
  have hCexp : expandBody [(lbl, 0, instrBody opsA)] (instrBody opsC) = .ok (instrBody opsC) :=
    expandBody_instr _ opsC
  have he : expandBody [(lbl, 0, instrBody opsA)]
        ((instrBody opsB ++ Body.execC lbl .nil) ++ instrBody opsC)
      = .ok ((instrBody opsB ++ instrBody opsA) ++ instrBody opsC) :=
    expandBody_append _ _ _ _ _
      (expandBody_append _ _ _ _ _ hBexp hexec) hCexp
  have hL : compileTokens (procTok lbl ::
        (A ++ (endTok :: (beginTok :: (B ++ (execTok lbl :: (C ++ [endTok])))))))
      = buildBody ((instrBody opsB ++ instrBody opsA) ++ instrBody opsC) :=
    compileTokens_stage2 _ _ _ _ _ _ hd hp he
  have hpR : parseBody "begin".data (B ++ (A ++ (C ++ [endTok]))) [] .nil
      = .ok (((instrBody opsB ++ instrBody opsA) ++ instrBody opsC), []) := by
    rw [parseBody_instr B opsB (A ++ (C ++ [endTok])) "begin".data [] .nil hB,
      Body.nil_append, parseBody_instr A opsA (C ++ [endTok]) "begin".data [] _ hA,
      parseBody_instr C opsC [endTok] "begin".data [] _ hC, parseBody_end_base]
  have hbody : (instrBody opsB ++ instrBody opsA) ++ instrBody opsC
      = instrBody ((opsB ++ opsA) ++ opsC) := by
    rw [instrBody_append, instrBody_append]
  have heR : expandBody [] ((instrBody opsB ++ instrBody opsA) ++ instrBody opsC)
      = .ok ((instrBody opsB ++ instrBody opsA) ++ instrBody opsC) := by
    rw [hbody]
    exact expandBody_instr [] _
  have hR : compileTokens (beginTok :: (B ++ (A ++ (C ++ [endTok]))))
      = buildBody ((instrBody opsB ++ instrBody opsA) ++ instrBody opsC) :=
    compileTokens_stage2 _ _ _ _ _ _ (parseDecls_begin _ [] _) hpR heR
  refine ⟨hL.trans hR.symm, ?_⟩
  intro hne
  rw [hL, hbody, buildBody_instr _ (by simpa using hne)]
  simp

/-- Witness for C3 at the one-procedure test program. -/
theorem c3_exec_inlines_structurally_witness :
    compileTokens (procTok "foo".data ::
        (["push.3".data, "push.7".data, "mul".data] ++ (endTok :: (beginTok ::
          (["push.2".data, "push.3".data, "add".data] ++ (execTok "foo".data :: ([] ++ [endTok])))))))
      = compileTokens (beginTok :: (["push.2".data, "push.3".data, "add".data] ++
          (["push.3".data, "push.7".data, "mul".data] ++ ([] ++ [endTok])))) :=
  (c3_exec_inlines_structurally.1 "foo".data
    ["push.3".data, "push.7".data, "mul".data]
    ["push.2".data, "push.3".data, "add".data] []
    [[.push 3], [.push 7], [.mul]] [[.push 2], [.push 3], [.add]] []
    (by decide) (by decide) (by decide) (by decide)).1

/-- C1: a procedure declared with `k > 0` locals and a straight-line body
is inlined into the caller's single span as the prologue
`push(k) fmpupdate`, the lowered body operations, and the epilogue
`push(P - k) fmpupdate` with `P` the prime modulus — no `Join` boundary
is introduced (the result is one `Span`); for `k = 1` the epilogue
operand is `18446744069414584320`. -/
theorem c1_proc_locals_frame :
    (∀ (lbl s : List Char) (k : Nat) (A B C : List (List Char))
        (opsA opsB opsC : List (List Operation)),
        isValidLabel lbl = true →
        parseDecChars s = some k → 0 < k →
        A.map classify = opsA.map TokAction.instrA →
        B.map classify = opsB.map TokAction.instrA →
        C.map classify = opsC.map TokAction.instrA →
        compileTokens (procLocalsTok lbl s ::
            (A ++ (endTok :: (beginTok :: (B ++ (execTok lbl :: (C ++ [endTok])))))))
          = .ok (.span (opsB.flatten ++ [.push k, .fmpupdate] ++ opsA.flatten
              ++ [.push (P - k), .fmpupdate] ++ opsC.flatten)))
    ∧ P - 1 = 18446744069414584320
    ∧ compile "proc.foo.1 loc_store.0 add loc_load.0 mul end begin push.4 push.3 push.2 exec.foo end"
        = .ok (.span [.push 4, .push 3, .push 2, .push 1, .fmpupdate, .pad, .fmpadd, .mstore,
            .drop, .add, .pad, .fmpadd, .mload, .mul, .push 18446744069414584320,
            .fmpupdate]) := by
  refine ⟨?_, by decide, by decide⟩
  intro lbl s k A B C opsA opsB opsC hlbl hs hk hA hB hC
  have hkz : k ≠ 0 := Nat.pos_iff_ne_zero.mp hk
  have hsplitP : splitOnDot (procLocalsTok lbl s) = ["proc".data, lbl, s] := by
    rw [show procLocalsTok lbl s = "proc".data ++ '.' :: (lbl ++ '.' :: s) from rfl,
        splitOnDot_dot _ _ (by decide)]
    rw [show splitDotGo [] (lbl ++ '.' :: s) = splitOnDot (lbl ++ '.' :: s) from rfl,
        splitOnDot_dot lbl s (isValidLabel_no_dot lbl hlbl)]
    rw [show splitDotGo [] s = splitOnDot s from rfl,
        splitOnDot_no_dot s (parseDecChars_no_dot s k hs)]
  have hheader : procHeader (procLocalsTok lbl s) [lbl, s] = .ok (lbl, k) := by
    simp [procHeader, hlbl, hs]
  have htake : takeBody (A ++ (endTok :: (beginTok :: (B ++ (execTok lbl :: (C ++ [endTok])))))) 0
      = .ok (A ++ [endTok], beginTok :: (B ++ (execTok lbl :: (C ++ [endTok])))) :=
    takeBody_instr A opsA _ hA
  have hpb : parseBody "proc".data (A ++ [endTok]) [] .nil = .ok (instrBody opsA, []) := by
    rw [parseBody_instr A opsA [endTok] "proc".data [] .nil hA, Body.nil_append,
      parseBody_end_base]
  have hexpA : expandBody [] (instrBody opsA) = .ok (instrBody opsA) := expandBody_instr [] opsA
  have hd : parseDecls ((procLocalsTok lbl s ::
        (A ++ (endTok :: (beginTok :: (B ++ (execTok lbl :: (C ++ [endTok]))))))).length + 1)
        (procLocalsTok lbl s ::
          (A ++ (endTok :: (beginTok :: (B ++ (execTok lbl :: (C ++ [endTok])))))))
        []
      = .ok ([(lbl, k, instrBody opsA)],
          beginTok :: (B ++ (execTok lbl :: (C ++ [endTok])))) := by
    rw [show (procLocalsTok lbl s ::
        (A ++ (endTok :: (beginTok :: (B ++ (execTok lbl :: (C ++ [endTok]))))))).length + 1
      = (A ++ (endTok :: (beginTok :: (B ++ (execTok lbl :: (C ++ [endTok])))))).length + 1 + 1
      from by simp]
    rw [parseDecls_proc_step (procLocalsTok lbl s) [lbl, s] lbl k
      (A ++ (endTok :: (beginTok :: (B ++ (execTok lbl :: (C ++ [endTok]))))))
      (beginTok :: (B ++ (execTok lbl :: (C ++ [endTok])))) (A ++ [endTok]) []
      (instrBody opsA) (instrBody opsA)
      ((A ++ (endTok :: (beginTok :: (B ++ (execTok lbl :: (C ++ [endTok])))))).length + 1)
      hsplitP hheader rfl htake hpb hexpA]
    rw [List.nil_append]
    exact parseDecls_begin _ [(lbl, k, instrBody opsA)] _
  have hp : parseBody "begin".data (B ++ (execTok lbl :: (C ++ [endTok]))) [] .nil
      = .ok (((instrBody opsB ++ Body.execC lbl .nil) ++ instrBody opsC), []) := by
    rw [parseBody_instr B opsB (execTok lbl :: (C ++ [endTok])) "begin".data [] .nil hB,
      Body.nil_append, parseBody_exec "begin".data lbl hlbl,
      parseBody_instr C opsC [endTok] "begin".data [] _ hC, parseBody_end_base]
  have hlook : lookupProc [(lbl, k, instrBody opsA)] lbl = some (k, instrBody opsA) := by
    simp [lookupProc]
  have hexec : expandBody [(lbl, k, instrBody opsA)] (Body.execC lbl .nil)
      = .ok (instrBody ([[.push k, .fmpupdate]] ++ opsA ++ [[.push (P - k), .fmpupdate]])) := by
    rw [expandBody_exec_nil [(lbl, k, instrBody opsA)] lbl k (instrBody opsA) hlook,
      frameBody_instr k hkz opsA]
  have he : expandBody [(lbl, k, instrBody opsA)]
        ((instrBody opsB ++ Body.execC lbl .nil) ++ instrBody opsC)
      = .ok ((instrBody opsB
          ++ instrBody ([[.push k, .fmpupdate]] ++ opsA ++ [[.push (P - k), .fmpupdate]]))
          ++ instrBody opsC) :=
    expandBody_append _ _ _ _ _
      (expandBody_append _ _ _ _ _ (expandBody_instr _ opsB) hexec) (expandBody_instr _ opsC)
  have hL : compileTokens (procLocalsTok lbl s ::
        (A ++ (endTok :: (beginTok :: (B ++ (execTok lbl :: (C ++ [endTok])))))))
      = buildBody ((instrBody opsB
          ++ instrBody ([[.push k, .fmpupdate]] ++ opsA ++ [[.push (P - k), .fmpupdate]]))
          ++ instrBody opsC) :=
    compileTokens_stage2 _ _ _ _ _ _ hd hp he
  have hbody : (instrBody opsB
        ++ instrBody ([[.push k, .fmpupdate]] ++ opsA ++ [[.push (P - k), .fmpupdate]]))
        ++ instrBody opsC
      = instrBody ((opsB ++ ([[.push k, .fmpupdate]] ++ opsA ++ [[.push (P - k), .fmpupdate]]))
          ++ opsC) := by
    simp [instrBody_append, Body.append_assoc]
  have hne : ((opsB ++ ([[Operation.push k, Operation.fmpupdate]] ++ opsA
      ++ [[Operation.push (P - k), Operation.fmpupdate]]))
      ++ opsC).flatten ≠ [] := by
    intro hcon
    have := congrArg List.length hcon
    simp [List.flatten_append] at this
  rw [hL, hbody, buildBody_instr _ hne]
  simp [List.flatten_append, List.append_assoc]

/-- Witness for C1 at a concrete one-local procedure. -/
theorem c1_proc_locals_frame_witness :
    compileTokens (procLocalsTok "foo".data "1".data ::
        (["add".data] ++ (endTok :: (beginTok ::
          (["push.4".data] ++ (execTok "foo".data :: ([] ++ [endTok])))))))
      = .ok (.span ([[.push 4]].flatten ++ [.push 1, .fmpupdate] ++ [[.add]].flatten
          ++ [.push (P - 1), .fmpupdate] ++ ([] : List (List Operation)).flatten)) :=
  c1_proc_locals_frame.1 "foo".data "1".data 1 ["add".data] ["push.4".data] []
    [[.add]] [[.push 4]] [] (by decide) (by decide) (by decide) (by decide) (by decide)
    (by decide)

end MidenVM
